import Mathlib

/-!
Verification development for the encoding-converter extension.

The development shallowly embeds the core of `src/extension.ts`:
the encoding detector (`detectEncoding`), the conversion engine
(`convertFile`), the backup/undo manager (`createBackup`,
`findLatestBackup`, `undoConversion`) and the batch orchestrator
(`processMultipleFiles`, `getFilesInDirectory`).

External collaborators (the filesystem, the iconv-lite codec, the
jschardet and detect-file-encoding-and-language detectors, the editor
encoding hint, the regular-expression engine and the interactive
prompts) are modelled as explicit parameters, following the abstract
contracts of the specification.  Bytes are `List Nat` (each entry a
byte value), decoded text is a `List Nat` of Unicode code points, and
detector confidences are exact rationals.  The filesystem is an
association list from path to file content plus a modification time,
with a monotone clock stamping every write; JavaScript exceptions are
modelled as `Option` results at exactly the operations that can throw
in the source.
-/

/-- A file on disk: its byte content and its modification time. -/
structure FileData where
  content : List Nat
  mtime : Nat
deriving DecidableEq

/-- The filesystem state: an association list of files plus a clock that
stamps writes, so that later writes always carry larger mtimes. -/
structure FS where
  files : List (String × FileData)
  now : Nat
deriving DecidableEq

/-- Look a path up in an association list of files. -/
def lookupFile : List (String × FileData) → String → Option FileData
  | [], _ => none
  | e :: es, p => if e.1 = p then some e.2 else lookupFile es p

/-- Remove every entry for a path from an association list of files. -/
def removeFile : List (String × FileData) → String → List (String × FileData)
  | [], _ => []
  | e :: es, p => if e.1 = p then removeFile es p else e :: removeFile es p

/-- Read a file (the `readBytes`/`stat` collaborator). -/
def FS.get (fs : FS) (p : String) : Option FileData :=
  lookupFile fs.files p

/-- Write a file in place, stamping it with the current clock. -/
def FS.write (fs : FS) (p : String) (c : List Nat) : FS :=
  ⟨(p, ⟨c, fs.now⟩) :: removeFile fs.files p, fs.now + 1⟩

/-- Delete a file. -/
def FS.delete (fs : FS) (p : String) : FS :=
  ⟨removeFile fs.files p, fs.now⟩

/-- Every stored mtime lies strictly below the clock. -/
def FS.WellFormed (fs : FS) : Prop :=
  ∀ p d, fs.get p = some d → d.mtime < fs.now

/-- Lower-case a single ASCII character (the relevant fragment of
JavaScript `toLowerCase`). -/
def lowerChar (c : Char) : Char :=
  if 'A' ≤ c ∧ c ≤ 'Z' then Char.ofNat (c.toNat + 32) else c

/-- Lower-case a string character by character. -/
def lowerStr (s : String) : String := ⟨s.data.map lowerChar⟩

/-- Whitespace test used by `trimStr`. -/
def isWsChar (c : Char) : Bool := c = ' ' ∨ c = '\t' ∨ c = '\n' ∨ c = '\r'

/-- Strip leading and trailing whitespace (JavaScript `trim`). -/
def trimStr (s : String) : String :=
  ⟨((s.data.dropWhile isWsChar).reverse.dropWhile isWsChar).reverse⟩

/-- Does the string begin with the given characters? -/
def charsStart : List Char → List Char → Bool
  | _, [] => true
  | [], _ :: _ => false
  | c :: cs, d :: ds => c = d && charsStart cs ds

/-- String version of `charsStart` (JavaScript `startsWith`). -/
def strStarts (s pre : String) : Bool := charsStart s.data pre.data

/-- The final path segment (the `path.basename` collaborator,
POSIX separators). -/
def basename (p : String) : String :=
  ⟨(p.data.reverse.takeWhile (· ≠ '/')).reverse⟩

/-- The extension of a file name including the dot, empty when there is
no dot or the only dot is the leading character (the `path.extname`
collaborator). -/
def extname (nm : String) : String :=
  let rev := nm.data.reverse
  let tw := rev.takeWhile (· ≠ '.')
  if tw.length = rev.length then ""
  else if tw.length + 1 = rev.length then ""
  else ⟨'.' :: tw.reverse⟩

/-- Source lines 239-255: normalize an encoding name to the standard
lower-case spelling via the alias map. -/
def normalizeEncoding (encoding : String) : String :=
  let normalized := trimStr (lowerStr encoding)
  if normalized = "utf8" then "utf-8"
  else if normalized = "utf16" then "utf-16"
  else if normalized = "utf16le" then "utf-16le"
  else if normalized = "utf16be" then "utf-16be"
  else if normalized = "ascii" then "ascii"
  else if normalized = "latin1" then "iso-8859-1"
  else if normalized = "cp1252" then "windows-1252"
  else if normalized = "gb18030" then "gb18030"
  else normalized

/-- Configuration (source lines 24-30 and 93-105). -/
structure Config where
  batchConcurrency : Nat
  createBackup : Bool
  showDetailedResults : Bool
  excludePatterns : List String
  autoReopenFiles : Bool
deriving DecidableEq

/-- A file identity: the URI scheme and the filesystem path. -/
structure Uri where
  scheme : String
  fsPath : String
deriving DecidableEq

/-- Result of one detection call (source line 260). -/
structure DetectionResult where
  encoding : String
  confidence : ℚ
  method : String

/-- Per-file conversion outcome (source lines 33-44).  Optional fields
are `none` when the source leaves them `undefined`; `skipped` is a
plain `Bool` because the source only ever tests its truthiness. -/
structure ConversionResult where
  success : Bool
  filePath : String
  originalEncoding : Option String := none
  targetEncoding : Option String := none
  fileSize : Option Nat := none
  error : Option String := none
  skipped : Bool := false
  skipReason : Option String := none
  backupCreated : Option Bool := none
  detectedOriginalEncoding : Option String := none
deriving DecidableEq

/-- Batch aggregate (source lines 46-53). -/
structure BatchResult where
  totalFiles : Nat
  processed : Nat
  converted : Nat
  skipped : Nat
  errors : Nat
  results : List ConversionResult
deriving DecidableEq

/-- The external codec adapter (iconv-lite): decode bytes to code
points, decode with the BOM-stripping option, and encode code points to
bytes.  `none` models a thrown exception. -/
structure Codec where
  decode : List Nat → String → Option (List Nat)
  decodeStripBOM : List Nat → String → Option (List Nat)
  encode : List Nat → String → Option (List Nat)

/-- The external collaborators a conversion consults: the codec, the
editor encoding hint for the file (method 1), the jschardet answer with
its confidence (method 2, `none` models a thrown exception or a null
result), the detect-file-encoding-and-language answer (method 3,
`none` models a thrown exception), the regular-expression test used for
exclude patterns, and the answer to the large-file prompt. -/
structure Env where
  codec : Codec
  vscodeHint : Option String
  jschardet : Option (String × ℚ)
  auxDetect : Option String
  regexTest : String → String → Bool
  userConfirmLarge : Bool

/-- Built-in binary extension list (source lines 141-147). -/
def binaryExtensions : List String :=
  [".exe", ".dll", ".so", ".dylib", ".bin", ".obj", ".o", ".a", ".lib",
   ".jpg", ".jpeg", ".png", ".gif", ".bmp", ".tiff", ".ico", ".webp",
   ".mp3", ".mp4", ".avi", ".mov", ".wmv", ".flv", ".mkv", ".wav", ".ogg",
   ".zip", ".rar", ".7z", ".tar", ".gz", ".bz2", ".xz", ".lzma",
   ".pdf", ".doc", ".docx", ".ppt", ".pptx", ".xls", ".xlsx"]

/-- Translate an exclude glob the way the source does before handing it
to the regular-expression engine (source line 133): `*` becomes `.*`
and `?` becomes `.`. -/
def globToRegex (pat : String) : String :=
  ⟨(pat.data.map fun c => if c = '*' then ['.', '*'] else if c = '?' then ['.'] else [c]).flatten⟩

/-- Source lines 121-154: decide whether a file should be processed.
Returns the decision and the reason for a rejection. -/
def shouldProcessFile (cfg : Config) (env : Env) (uri : Uri) : Bool × Option String :=
  let fileName := basename uri.fsPath
  let fileExtension := lowerStr (extname fileName)
  if uri.scheme = "untitled" ∨ strStarts uri.fsPath "untitled:" then
    (false, some "Untitled/unsaved file")
  else
    match cfg.excludePatterns.find? (fun pat => env.regexTest (globToRegex pat) fileName) with
    | some pat => (false, some ("Excluded by pattern: " ++ pat))
    | none =>
      if fileExtension ∈ binaryExtensions then (false, some "Binary file type")
      else (true, none)

/-- The candidate list of the heuristic detection step (source line 310). -/
def commonEncodings : List String :=
  ["big5", "gbk", "gb2312", "shift_jis", "euc-kr", "iso-8859-1", "windows-1252"]

/-- Number of U+FFFD replacement characters in decoded text
(source line 314). -/
def replacementCount (t : List Nat) : Nat := t.count 0xFFFD

/-- Source lines 317-319: the size-scaled replacement threshold.  The
JavaScript expressions `Math.floor(length * 0.1)` and
`Math.floor(length * 0.05)` agree with exact division by 10 and 20 for
every buffer length below 2^53, because the double nearest to 0.1
(resp. 0.05) exceeds the true value by a relative error of 2^-54, too
small to push any product across an integer boundary after rounding. -/
def heuristicThreshold (len : Nat) : Nat :=
  if len < 100 then max 1 (len / 10) else len / 20

/-- The heuristic for-loop of source lines 311-327: try each candidate
in order, skip candidates whose decode throws, and return on the first
candidate decoding with fewer replacement characters than the
threshold. -/
def heuristicLoop (codec : Codec) (bytes : List Nat) : List String → Option DetectionResult
  | [] => none
  | e :: es =>
    match codec.decode bytes e with
    | some t =>
      if replacementCount t < heuristicThreshold bytes.length then
        some ⟨normalizeEncoding e, 0.6, "heuristic"⟩
      else heuristicLoop codec bytes es
    | none => heuristicLoop codec bytes es

/-- Method 4 and the default of detection (source lines 309-330). -/
def detectEncodingHeuristic (env : Env) (rawBuffer : List Nat) : DetectionResult :=
  match heuristicLoop env.codec rawBuffer commonEncodings with
  | some r => r
  | none => ⟨"utf-8", 0.5, "default"⟩

/-- Methods 3-4 and the default of detection (source lines 299-330). -/
def detectEncodingAux (env : Env) (rawBuffer : List Nat) : DetectionResult :=
  match env.auxDetect with
  | some e =>
    if lowerStr e ≠ "utf-8" then
      ⟨normalizeEncoding e, 0.8, "detect-file-encoding-and-language"⟩
    else detectEncodingHeuristic env rawBuffer
  | none => detectEncodingHeuristic env rawBuffer

/-- Methods 2-4 and the default of detection (source lines 289-330). -/
def detectEncodingTail (env : Env) (rawBuffer : List Nat) : DetectionResult :=
  match env.jschardet with
  | some r =>
    if r.2 > 0.7 then ⟨normalizeEncoding r.1, r.2, "jschardet"⟩
    else detectEncodingAux env rawBuffer
  | none => detectEncodingAux env rawBuffer

/-- Source lines 260-335: layered encoding detection.  `read` is the
result of reading the file; `none` models a read that throws, which the
outermost catch turns into the fallback result. -/
def detectEncoding (env : Env) (read : Option (List Nat)) : DetectionResult :=
  match read with
  | none => ⟨"utf-8", 0.1, "fallback"⟩
  | some rawBuffer =>
    if rawBuffer.length = 0 then ⟨"utf-8", 1.0, "empty-file"⟩
    else if rawBuffer.length < 4 then
      if rawBuffer.all (fun byte => byte < 128 ∧ byte > 0) then
        ⟨"ascii", 0.9, "small-ascii"⟩
      else ⟨"utf-8", 0.7, "small-file"⟩
    else
      match env.vscodeHint with
      | some hint =>
        if hint ≠ "utf8" ∧ hint ≠ "utf-8" then
          ⟨normalizeEncoding hint, 0.95, "vscode"⟩
        else detectEncodingTail env rawBuffer
      | none => detectEncodingTail env rawBuffer

/-- Decimal digit character. -/
def digitChar (d : Nat) : Char :=
  match d with
  | 0 => '0' | 1 => '1' | 2 => '2' | 3 => '3' | 4 => '4'
  | 5 => '5' | 6 => '6' | 7 => '7' | 8 => '8' | _ => '9'

/-- Decimal digits of a positive number; the first argument is fuel
bounding the number of digits. -/
def natChars : Nat → Nat → List Char
  | 0, _ => []
  | fuel + 1, n => if n = 0 then [] else natChars fuel (n / 10) ++ [digitChar (n % 10)]

/-- Decimal rendering of a number (JavaScript template interpolation). -/
def natToString (n : Nat) : String :=
  if n = 0 then "0" else ⟨natChars n n⟩

/-- The backup-name probe loop of source lines 178-193.  Starting from
`path + ".bak"` with counter 1, while the current candidate exists move
to `path + ".bak." + counter` and increment; once the counter passes
100 the `throw` inside the same `try` block is swallowed by its own
`catch`, which breaks out of the loop with the current (possibly
existing) candidate.  `fuel` only bounds the structural recursion; 101
units are more than the loop can ever consume. -/
def probeLoop (fs : FS) (p : String) : String → Nat → Nat → String
  | cur, _, 0 => cur
  | cur, counter, fuel + 1 =>
    if (fs.get cur).isSome then
      let next := p ++ ".bak." ++ natToString counter
      if counter + 1 > 100 then next
      else probeLoop fs p next (counter + 1) fuel
    else cur

/-- The backup path `createBackup` selects for a file. -/
def probeBackup (fs : FS) (p : String) : String :=
  probeLoop fs p (p ++ ".bak") 1 101

/-- Source lines 171-202: read the original bytes, probe for a backup
name, write the bytes there.  Returns whether a backup was created,
plus the new filesystem.  A failing read is caught and yields `false`
with no mutation. -/
def createBackup (fs : FS) (p : String) : Bool × FS :=
  match fs.get p with
  | none => (false, fs)
  | some d =>
    let bp := probeBackup fs p
    (true, fs.write bp d.content)

/-- The fixed candidate suffix set examined by `findLatestBackup`
(source lines 545-552). -/
def backupCandidates (p : String) : List String :=
  [p ++ ".bak", p ++ ".bak.1", p ++ ".bak.2",
   p ++ ".bak.3", p ++ ".bak.4", p ++ ".bak.5"]

/-- The scan of source lines 558-568: keep the candidate whose mtime
strictly exceeds the best seen so far (which starts at 0). -/
def latestLoop (fs : FS) : List String → Option String → Nat → Option String
  | [], best, _ => best
  | c :: cs, best, t =>
    match fs.get c with
    | some d => if t < d.mtime then latestLoop fs cs (some c) d.mtime
                else latestLoop fs cs best t
    | none => latestLoop fs cs best t

/-- Source lines 544-571: the most recent backup by modification time
among the six fixed candidates. -/
def findLatestBackup (fs : FS) (p : String) : Option String :=
  latestLoop fs (backupCandidates p) none 0

/-- Outcome of an undo: success flag, resulting filesystem, and whether
a user-visible error message was shown. -/
structure UndoOutcome where
  ok : Bool
  fs : FS
  errorShown : Bool
deriving DecidableEq

/-- Source lines 576-606: locate the latest backup (error if none),
restore its bytes over the original path, then delete the backup. -/
def undoConversion (fs : FS) (filePath : String) : UndoOutcome :=
  match findLatestBackup fs filePath with
  | none => ⟨false, fs, true⟩
  | some backupPath =>
    match fs.get backupPath with
    | none => ⟨false, fs, true⟩
    | some d => ⟨true, (fs.write filePath d.content).delete backupPath, false⟩

/-- The portion of `convertFile` after the no-op check (source lines
431-485): back up if configured, decode with the detected encoding
(retrying with BOM stripping), encode to the target, write in place.
Decode or encode failure is caught by the outer handler and reported in
the result, with the backup (if any) left behind. -/
def convertFull (env : Env) (cfg : Config) (fs : FS) (uri : Uri)
    (detectedEncoding targetEncoding : String) (fileSize : Nat)
    (rawBuffer : List Nat) (sourceEncoding : Option String) :
    ConversionResult × FS :=
  let backed := if cfg.createBackup then createBackup fs uri.fsPath else (false, fs)
  let failure : String → ConversionResult × FS := fun msg =>
    ({ success := false
       filePath := uri.fsPath
       originalEncoding := sourceEncoding
       targetEncoding := some targetEncoding
       fileSize := some fileSize
       error := some ("Conversion failed: " ++ msg) }, backed.2)
  let decoded :=
    match env.codec.decode rawBuffer detectedEncoding with
    | some t => some t
    | none => env.codec.decodeStripBOM rawBuffer detectedEncoding
  match decoded with
  | none => failure "Error: Failed to decode file"
  | some text =>
    match env.codec.encode text targetEncoding with
    | none => failure ("Error: Failed to encode to " ++ targetEncoding)
    | some encodedBuffer =>
      ({ success := true
         filePath := uri.fsPath
         originalEncoding := some detectedEncoding
         targetEncoding := some targetEncoding
         fileSize := some fileSize
         backupCreated := some backed.1
         detectedOriginalEncoding := some detectedEncoding },
       backed.2.write uri.fsPath encodedBuffer)

/-- Source lines 388-402: the effective source encoding of a
conversion.  A caller-supplied encoding is trusted after lower-casing
(method manual); otherwise the detector runs on the file bytes. -/
def effectiveSourceEncoding (env : Env) (rawBuffer : List Nat) :
    Option String → String
  | some s => lowerStr s
  | none => (detectEncoding env (some rawBuffer)).encoding

/-- The byte round-trip test of the no-op check (source lines 412-415):
decode under the normalized target, re-encode, compare byte for byte.
False also covers a decode or encode that throws. -/
def roundTripOK (codec : Codec) (bytes : List Nat) (enc : String) : Bool :=
  match codec.decode bytes enc with
  | some t =>
    match codec.encode t enc with
    | some rb => rb = bytes
    | none => false
  | none => false

/-- Source lines 340-486: the conversion engine for one file.  Classify,
read, guard large files, resolve the source encoding (caller-supplied
lower-cased, else detected), short-circuit when the normalized names
agree and the bytes round-trip, otherwise run the full conversion.  A
read that throws is caught by the outer handler. -/
def convertFile (env : Env) (cfg : Config) (fs : FS) (uri : Uri)
    (sourceEncoding : Option String) (targetEncoding : String) :
    ConversionResult × FS :=
  let processCheck := shouldProcessFile cfg env uri
  if ¬ processCheck.1 then
    ({ success := false
       filePath := uri.fsPath
       skipped := true
       skipReason := processCheck.2 }, fs)
  else
    let fileSize := ((fs.get uri.fsPath).map (fun d => d.content.length)).getD 0
    match fs.get uri.fsPath with
    | none =>
      ({ success := false
         filePath := uri.fsPath
         originalEncoding := sourceEncoding
         targetEncoding := some targetEncoding
         fileSize := some fileSize
         error := some "Conversion failed: Error: file could not be read" }, fs)
    | some d =>
      let rawBuffer := d.content
      if rawBuffer.length > 104857600 ∧ ¬ env.userConfirmLarge then
        ({ success := false
           filePath := uri.fsPath
           skipped := true
           skipReason := some "User cancelled due to large file size" }, fs)
      else
        let detectedEncoding := effectiveSourceEncoding env rawBuffer sourceEncoding
        let normalizedDetected := normalizeEncoding detectedEncoding
        let normalizedTarget := normalizeEncoding targetEncoding
        let skipResult : ConversionResult × FS :=
          ({ success := true
             filePath := uri.fsPath
             originalEncoding := some detectedEncoding
             targetEncoding := some targetEncoding
             fileSize := some fileSize
             skipped := true
             skipReason := some "Already in target encoding" }, fs)
        let fallThrough :=
          convertFull env cfg fs uri detectedEncoding targetEncoding fileSize
            rawBuffer sourceEncoding
        if normalizedDetected = normalizedTarget then
          match env.codec.decode rawBuffer normalizedTarget with
          | some testText =>
            match env.codec.encode testText normalizedTarget with
            | some reencoded =>
              if reencoded = rawBuffer then skipResult else fallThrough
            | none => fallThrough
          | none => fallThrough
        else fallThrough

/-- Running aggregate of the batch loop (source lines 777-782). -/
structure BatchAcc where
  results : List ConversionResult := []
  processed : Nat := 0
  converted : Nat := 0
  skipped : Nat := 0
  errors : Nat := 0
deriving DecidableEq

/-- The per-result statistics update of source lines 798-813: a result
with `skipped` set counts as skipped whether or not it succeeded;
otherwise success counts as converted and failure as an error. -/
def countResult (acc : BatchAcc) (r : ConversionResult) : BatchAcc :=
  let acc := { acc with processed := acc.processed + 1 }
  if r.success then
    if r.skipped then { acc with skipped := acc.skipped + 1 }
    else { acc with converted := acc.converted + 1 }
  else
    if r.skipped then { acc with skipped := acc.skipped + 1 }
    else { acc with errors := acc.errors + 1 }

/-- Append a finished wave to the accumulator and update the counts. -/
def recordWave (acc : BatchAcc) (wave : List ConversionResult) : BatchAcc :=
  wave.foldl countResult { acc with results := acc.results ++ wave }

/-- The wave loop of source lines 785-822.  `conv` abstracts one call of
the conversion engine; `Promise.all` returns the wave results in the
order of the wave array, so a wave contributes `wave.map conv`.
`cancel` is the cancellation token sampled at the start of wave `w`.
The batch size is `bsPred + 1`: the caller only enters the loop with a
positive batch size.  The first argument is structural fuel; every
iteration consumes at least one file, so fuel equal to the number of
files is always enough. -/
def waveLoop {α : Type} (conv : α → ConversionResult) (cancel : Nat → Bool)
    (bsPred : Nat) : Nat → Nat → List α → BatchAcc → BatchAcc
  | _, _, [], acc => acc
  | 0, _, _ :: _, acc => acc
  | fuel + 1, w, f :: fsRest, acc =>
    if cancel w then acc
    else
      let wave := f :: fsRest.take bsPred
      waveLoop conv cancel bsPred fuel (w + 1) (fsRest.drop bsPred)
        (recordWave acc (wave.map conv))

/-- Source lines 750-833: the batch orchestrator.  `confirmed` is the
answer to the pre-conversion dialog; declining returns the all-zero
aggregate.  A batch size of zero with a non-empty file list makes the
JavaScript `for` loop spin forever, modelled as `none`. -/
def processMultipleFiles {α : Type} (conv : α → ConversionResult)
    (confirmed : Bool) (cancel : Nat → Bool) (cfg : Config)
    (files : List α) : Option BatchResult :=
  if ¬ confirmed then
    some ⟨0, 0, 0, 0, 0, []⟩
  else
    match min cfg.batchConcurrency files.length with
    | 0 =>
      if files.length = 0 then some ⟨0, 0, 0, 0, 0, []⟩ else none
    | bsPred + 1 =>
      let acc := waveLoop conv cancel bsPred files.length 0 files {}
      some ⟨files.length, acc.processed, acc.converted, acc.skipped,
            acc.errors, acc.results⟩

/-- A directory tree entry, as reported by the directory-listing
collaborator. -/
inductive FsNode where
  | file (name : String)
  | dir (name : String) (children : List FsNode)

/-- The recursive directory walk of source lines 491-517, collecting
files that pass the classifier.  The first argument is structural fuel
bounding the number of visited entries, which JavaScript leaves
unbounded. -/
def getFilesInDirectory (cfg : Config) (env : Env) :
    Nat → String → List FsNode → List String
  | 0, _, _ => []
  | _, _, [] => []
  | fuel + 1, base, node :: rest =>
    (match node with
     | .file nm =>
       let child := base ++ "/" ++ nm
       if (shouldProcessFile cfg env ⟨"file", child⟩).1 then [child] else []
     | .dir nm children =>
       getFilesInDirectory cfg env fuel (base ++ "/" ++ nm) children) ++
    getFilesInDirectory cfg env fuel base rest

/-- The candidate-collection loop of `batchConvertToUTF8`
(source lines 1032-1053): an explicitly selected file is pushed as is,
a selected directory contributes its recursive walk. -/
def collectBatchFiles (cfg : Config) (env : Env) (fuel : Nat) :
    List (String × FsNode) → List String
  | [] => []
  | (p, node) :: rest =>
    (match node with
     | .file _ => [p]
     | .dir _ children => getFilesInDirectory cfg env fuel p children) ++
    collectBatchFiles cfg env fuel rest

/-- Modelled from the spec: the external codec adapter of section 6
(iconv-lite), which is not part of this repository.  Only the behavior
the witnesses need is modelled, faithful to the real library: every
candidate encoding and UTF-8 decode 7-bit ASCII bytes transparently
with no replacement characters, Big5 decodes the byte pair A4 A4 to the
CJK code point 4E2D, UTF-8 encodes 4E2D as E4 B8 AD, and any other
request throws. -/
def modelCodec : Codec where
  decode := fun bytes enc =>
    if enc = "utf-8" ∨ enc = "utf8" ∨ enc = "ascii" ∨ enc ∈ commonEncodings then
      if bytes.all (· < 128) then some bytes
      else if enc = "big5" ∧ bytes = [164, 164] then some [20013]
      else none
    else none
  decodeStripBOM := fun bytes enc =>
    if enc = "utf-8" ∨ enc = "utf8" ∨ enc = "ascii" ∨ enc ∈ commonEncodings then
      if bytes.all (· < 128) then some bytes
      else if enc = "big5" ∧ bytes = [164, 164] then some [20013]
      else none
    else none
  encode := fun text enc =>
    if enc = "utf-8" ∨ enc = "utf8" ∨ enc = "ascii" then
      if text.all (· < 128) then some text
      else if text = [20013] then some [228, 184, 173]
      else none
    else none

/-- An environment whose external detectors all decline: no editor hint,
jschardet throws, the auxiliary detector throws, no exclude pattern
matches, and large files are confirmed. -/
def quietEnv : Env where
  codec := modelCodec
  vscodeHint := none
  jschardet := none
  auxDetect := none
  regexTest := fun _ _ => false
  userConfirmLarge := true

/-- A configuration with backups enabled and no exclude patterns. -/
def plainConfig : Config where
  batchConcurrency := 5
  createBackup := true
  showDetailedResults := true
  excludePatterns := []
  autoReopenFiles := true

/-- Witness data: one ASCII file already stored in the target encoding. -/
def fsNoop : FS := ⟨[("a.txt", ⟨[104, 105], 0⟩)], 1⟩

/-- Witness data: a Big5 file with no existing backups. -/
def fsUndo : FS := ⟨[("b.txt", ⟨[164, 164], 0⟩)], 1⟩

/-- Counterexample data: a Big5 file whose six candidate backup names
are all taken already, each holding bytes different from the file. -/
def fsSixBak : FS :=
  ⟨[("c.txt", ⟨[164, 164], 0⟩),
    ("c.txt.bak", ⟨[1], 1⟩), ("c.txt.bak.1", ⟨[2], 2⟩),
    ("c.txt.bak.2", ⟨[3], 3⟩), ("c.txt.bak.3", ⟨[4], 4⟩),
    ("c.txt.bak.4", ⟨[5], 5⟩), ("c.txt.bak.5", ⟨[6], 6⟩)], 7⟩

/-- Counterexample data for the backup-lookup mismatch: same shape as
`fsSixBak` but under a different path. -/
def fsTenBak : FS :=
  ⟨[("g.txt", ⟨[164, 164], 0⟩),
    ("g.txt.bak", ⟨[11], 1⟩), ("g.txt.bak.1", ⟨[12], 2⟩),
    ("g.txt.bak.2", ⟨[13], 3⟩), ("g.txt.bak.3", ⟨[14], 4⟩),
    ("g.txt.bak.4", ⟨[15], 5⟩), ("g.txt.bak.5", ⟨[16], 6⟩)], 7⟩

/-- The n-th backup name for path `f`. -/
def backupName : Nat → String
  | 0 => "f.bak"
  | n + 1 => "f.bak." ++ natToString (n + 1)

/-- Counterexample data: path `f` together with 101 existing backups
`f.bak`, `f.bak.1`, ..., `f.bak.100`. -/
def manyBackupsFS : FS :=
  ⟨("f", ⟨[7, 7], 101⟩) :: (List.range 101).map (fun i => (backupName i, ⟨[i], i⟩)),
   102⟩

/-- Witness data: a trivial per-file conversion outcome for batch runs. -/
def convOk (p : String) : ConversionResult := { success := true, filePath := p }

/-- Witness data: a selection containing a directory and, explicitly, a
file inside that same directory. -/
def dupSelection : List (String × FsNode) :=
  [("d", .dir "d" [.file "a.txt"]), ("d/a.txt", .file "a.txt")]

/-- The selection rule of the heuristic round-trip step as the
specification words it: the first candidate, in the fixed order, whose
replacement-character count after a successful decode lies strictly
below the size-scaled threshold. -/
def firstCleanCandidate (codec : Codec) (bytes : List Nat) : Option String :=
  commonEncodings.find? fun e =>
    match codec.decode bytes e with
    | some t => decide (replacementCount t < heuristicThreshold bytes.length)
    | none => false

/-- The invariant of the batch statistics. -/
def BatchAcc.Balanced (acc : BatchAcc) : Prop :=
  acc.processed = acc.converted + acc.skipped + acc.errors ∧
  acc.processed = acc.results.length

theorem lookupFile_removeFile (l : List (String × FileData)) (p q : String) :
    lookupFile (removeFile l p) q = if q = p then none else lookupFile l q := by
  induction l with
  | nil => simp [removeFile, lookupFile]
  | cons e es ih =>
    simp only [removeFile, lookupFile]
    by_cases h1 : e.1 = p
    · rw [if_pos h1, ih]
      by_cases h2 : q = p
      · simp [h2]
      · have h3 : ¬ e.1 = q := fun hh => h2 (by rw [← hh, h1])
        simp [h2, h3]
    · rw [if_neg h1]
      simp only [lookupFile]
      by_cases h2 : e.1 = q
      · have hqp : ¬ q = p := fun hh => h1 (by rw [h2, hh])
        simp [h2, hqp]
      · simp [h2, ih]

theorem FS.get_write (fs : FS) (p : String) (c : List Nat) (q : String) :
    (fs.write p c).get q = if q = p then some ⟨c, fs.now⟩ else fs.get q := by
  simp only [FS.get, FS.write, lookupFile, lookupFile_removeFile]
  by_cases h : p = q
  · simp [h]
  · have h2 : ¬ q = p := fun hh => h hh.symm
    simp [h, h2]

theorem FS.get_delete (fs : FS) (p q : String) :
    (fs.delete p).get q = if q = p then none else fs.get q := by
  simp [FS.get, FS.delete, lookupFile_removeFile]

theorem lookupFile_mem {l : List (String × FileData)} {p : String} {d : FileData}
    (h : lookupFile l p = some d) : (p, d) ∈ l := by
  induction l with
  | nil => simp [lookupFile] at h
  | cons e es ih =>
    simp only [lookupFile] at h
    by_cases h1 : e.1 = p
    · rw [if_pos h1] at h
      have hd2 : e.2 = d := Option.some.inj h
      have hpd : (p, d) = e := by
        obtain ⟨e1, e2⟩ := e
        simp only at h1 hd2
        rw [h1, hd2]
      rw [hpd]
      exact List.mem_cons_self _ _
    · rw [if_neg h1] at h
      exact List.mem_cons_of_mem _ (ih h)

theorem wellFormed_of_mem {l : List (String × FileData)} {n : Nat}
    (h : ∀ e ∈ l, e.2.mtime < n) : FS.WellFormed ⟨l, n⟩ := by
  intro p d hd
  exact h (p, d) (lookupFile_mem hd)

theorem append_ne_self (p s : String) (h : s ≠ "") : p ++ s ≠ p := by
  intro hEq
  apply h
  have hd : p.data ++ s.data = p.data := by
    have := congrArg String.data hEq
    simpa [String.data_append] using this
  have : s.data = [] := by
    have := congrArg List.length hd
    simp at this
    exact List.length_eq_zero.mp this
  exact String.ext (by simpa [String.data] using this)

theorem backupCandidates_ne_self (p : String) :
    ∀ c ∈ backupCandidates p, c ≠ p := by
  intro c hc
  simp [backupCandidates] at hc
  rcases hc with h | h | h | h | h | h <;> subst h <;>
    exact append_ne_self _ _ (by decide)

theorem latestLoop_keep (fs : FS) (l : List String) (b : String) (t : Nat)
    (h : ∀ c ∈ l, ∀ d, fs.get c = some d → d.mtime ≤ t) :
    latestLoop fs l (some b) t = some b := by
  induction l generalizing t with
  | nil => rfl
  | cons c cs ih =>
    simp only [latestLoop]
    cases hg : fs.get c with
    | none => exact ih t fun x hx d hd => h x (List.mem_cons_of_mem _ hx) d hd
    | some d =>
      have hle := h c (List.mem_cons_self _ _) d hg
      simp only [Nat.not_lt.mpr hle, if_false]
      exact ih t fun x hx e he => h x (List.mem_cons_of_mem _ hx) e he

theorem latestLoop_pick (fs : FS) (l : List String) (b : String) (db : FileData)
    (hget : fs.get b = some db) (hb : b ∈ l)
    (hmax : ∀ c ∈ l, c ≠ b → ∀ dc, fs.get c = some dc → dc.mtime < db.mtime) :
    ∀ (best : Option String) (t : Nat), t < db.mtime →
      latestLoop fs l best t = some b := by
  induction l with
  | nil => cases hb
  | cons c cs ih =>
    intro best t ht
    simp only [latestLoop]
    by_cases hcb : c = b
    · subst hcb
      rw [hget]
      simp only [if_pos ht]
      apply latestLoop_keep
      intro x hx d hd
      by_cases hxc : x = c
      · subst hxc
        rw [hget] at hd
        cases Option.some.inj hd
        exact le_refl _
      · exact le_of_lt (hmax x (List.mem_cons_of_mem _ hx) hxc d hd)
    · have hbcs : b ∈ cs := by
        rcases List.mem_cons.mp hb with h | h
        · exact absurd h.symm hcb
        · exact h
      have hmax2 : ∀ x ∈ cs, x ≠ b → ∀ dc, fs.get x = some dc → dc.mtime < db.mtime :=
        fun x hx => hmax x (List.mem_cons_of_mem _ hx)
      have ih2 := ih hbcs hmax2
      cases hg : fs.get c with
      | none => exact ih2 best t ht
      | some dc =>
        have hlt := hmax c (List.mem_cons_self _ _) hcb dc hg
        by_cases htd : t < dc.mtime
        · simp only [if_pos htd]
          exact ih2 (some c) dc.mtime hlt
        · simp only [if_neg htd]
          exact ih2 best t ht

theorem latestLoop_none (fs : FS) (l : List String) (best : Option String) (t : Nat)
    (h : ∀ c ∈ l, fs.get c = none) :
    latestLoop fs l best t = best := by
  induction l with
  | nil => rfl
  | cons c cs ih =>
    simp only [latestLoop, h c (List.mem_cons_self _ _)]
    exact ih fun x hx => h x (List.mem_cons_of_mem _ hx)

theorem heuristicLoop_eq_find (codec : Codec) (bytes : List Nat) (l : List String) :
    heuristicLoop codec bytes l =
      (l.find? fun e =>
        match codec.decode bytes e with
        | some t => decide (replacementCount t < heuristicThreshold bytes.length)
        | none => false).map
        (fun e => ⟨normalizeEncoding e, 0.6, "heuristic"⟩) := by
  induction l with
  | nil => rfl
  | cons e es ih =>
    simp only [heuristicLoop, List.find?]
    cases hd : codec.decode bytes e with
    | none => simpa using ih
    | some t =>
      by_cases hlt : replacementCount t < heuristicThreshold bytes.length
      · simp [hlt]
      · simpa [hlt] using ih

theorem countResult_fields (acc : BatchAcc) (r : ConversionResult) :
    (countResult acc r).processed = acc.processed + 1 ∧
    (countResult acc r).converted + (countResult acc r).skipped +
      (countResult acc r).errors =
      acc.converted + acc.skipped + acc.errors + 1 ∧
    (countResult acc r).results = acc.results := by
  simp only [countResult]
  by_cases hs : r.success <;> by_cases hk : r.skipped <;>
    simp [hs, hk] <;> omega

theorem foldl_countResult (wave : List ConversionResult) :
    ∀ acc : BatchAcc,
      (wave.foldl countResult acc).processed = acc.processed + wave.length ∧
      (wave.foldl countResult acc).converted + (wave.foldl countResult acc).skipped +
        (wave.foldl countResult acc).errors =
        acc.converted + acc.skipped + acc.errors + wave.length ∧
      (wave.foldl countResult acc).results = acc.results := by
  induction wave with
  | nil => intro acc; simp
  | cons r rest ih =>
    intro acc
    simp only [List.foldl_cons, List.length_cons]
    obtain ⟨h1, h2, h3⟩ := ih (countResult acc r)
    obtain ⟨g1, g2, g3⟩ := countResult_fields acc r
    refine ⟨?_, ?_, ?_⟩
    · rw [h1, g1]; omega
    · rw [h2, g2]; omega
    · rw [h3, g3]

theorem recordWave_fields (acc : BatchAcc) (wave : List ConversionResult) :
    (recordWave acc wave).processed = acc.processed + wave.length ∧
    (recordWave acc wave).converted + (recordWave acc wave).skipped +
      (recordWave acc wave).errors =
      acc.converted + acc.skipped + acc.errors + wave.length ∧
    (recordWave acc wave).results = acc.results ++ wave := by
  simp only [recordWave]
  obtain ⟨h1, h2, h3⟩ := foldl_countResult wave { acc with results := acc.results ++ wave }
  exact ⟨h1, h2, h3⟩

theorem recordWave_balanced {acc : BatchAcc} (wave : List ConversionResult)
    (h : acc.Balanced) : (recordWave acc wave).Balanced := by
  obtain ⟨h1, h2, h3⟩ := recordWave_fields acc wave
  obtain ⟨b1, b2⟩ := h
  constructor
  · rw [h1, h2, b1]
  · rw [h1, h3, List.length_append]
    omega

theorem waveLoop_balanced {α : Type} (conv : α → ConversionResult)
    (cancel : Nat → Bool) (bsPred : Nat) :
    ∀ (fuel w : Nat) (files : List α) (acc : BatchAcc), acc.Balanced →
      (waveLoop conv cancel bsPred fuel w files acc).Balanced := by
  intro fuel
  induction fuel with
  | zero =>
    intro w files acc h
    cases files <;> simpa [waveLoop] using h
  | succ fuel ih =>
    intro w files acc h
    cases files with
    | nil => simpa [waveLoop] using h
    | cons f rest =>
      simp only [waveLoop]
      by_cases hc : cancel w
      · simpa [hc] using h
      · simp only [hc, if_false]
        exact ih (w + 1) (rest.drop bsPred) _
          (recordWave_balanced _ h)

theorem waveLoop_results {α : Type} (conv : α → ConversionResult)
    (cancel : Nat → Bool) (bsPred : Nat) (hcan : ∀ w, cancel w = false) :
    ∀ (fuel : Nat) (files : List α), files.length ≤ fuel →
      ∀ (w : Nat) (acc : BatchAcc),
      (waveLoop conv cancel bsPred fuel w files acc).results =
        acc.results ++ files.map conv := by
  intro fuel
  induction fuel with
  | zero =>
    intro files hlen w acc
    have : files = [] := List.length_eq_zero.mp (Nat.le_zero.mp hlen)
    subst this
    simp [waveLoop]
  | succ fuel ih =>
    intro files hlen w acc
    cases files with
    | nil => simp [waveLoop]
    | cons f rest =>
      simp only [waveLoop, hcan w, Bool.false_eq_true, if_false]
      have hlen2 : (rest.drop bsPred).length ≤ fuel := by
        simp only [List.length_drop]
        simp only [List.length_cons] at hlen
        omega
      rw [ih (rest.drop bsPred) hlen2 (w + 1) _]
      obtain ⟨-, -, h3⟩ :=
        recordWave_fields acc ((f :: rest.take bsPred).map conv)
      rw [h3, List.append_assoc, ← List.map_append]
      have : f :: rest.take bsPred ++ rest.drop bsPred = f :: rest := by
        simp [List.take_append_drop]
      simp only [List.cons_append] at this ⊢
      rw [this]

theorem detect_declines (env : Env) (bytes : List Nat)
    (hlen : 4 ≤ bytes.length)
    (hhint : ∀ h, env.vscodeHint = some h → h = "utf8" ∨ h = "utf-8")
    (hjs : ∀ r, env.jschardet = some r → r.2 ≤ (0.7 : ℚ))
    (haux : ∀ e, env.auxDetect = some e → lowerStr e = "utf-8") :
    detectEncoding env (some bytes) = detectEncodingHeuristic env bytes := by
  have hne : ¬ bytes.length = 0 := by omega
  have hlt : ¬ bytes.length < 4 := by omega
  have haux2 : detectEncodingAux env bytes = detectEncodingHeuristic env bytes := by
    cases he : env.auxDetect with
    | none => simp [detectEncodingAux, he]
    | some e => simp [detectEncodingAux, he, haux e he]
  have htail : detectEncodingTail env bytes = detectEncodingHeuristic env bytes := by
    cases hj : env.jschardet with
    | none => simp [detectEncodingTail, hj, haux2]
    | some r =>
      have hn : ¬ r.2 > (0.7 : ℚ) := not_lt.mpr (hjs r hj)
      simp [detectEncodingTail, hj, hn, haux2]
  cases hv : env.vscodeHint with
  | none => simp [detectEncoding, hne, hlt, hv, htail]
  | some h =>
    rcases hhint h hv with h8 | h8 <;>
      simp [detectEncoding, hne, hlt, hv, h8, htail]

/-- C4: a zero-byte input detects as utf-8 with confidence 1.0 via the
empty-file method; an input of 1 to 3 bytes all in [1,127] detects as
ascii with confidence 0.9; any other input of 1 to 3 bytes detects as
utf-8 with confidence 0.7. -/
theorem detectEncoding_smallFiles :
    (∀ env : Env, detectEncoding env (some []) = ⟨"utf-8", 1.0, "empty-file"⟩) ∧
    (∀ (env : Env) (b : List Nat), 1 ≤ b.length → b.length ≤ 3 →
      (∀ x ∈ b, 1 ≤ x ∧ x ≤ 127) →
      detectEncoding env (some b) = ⟨"ascii", 0.9, "small-ascii"⟩) ∧
    (∀ (env : Env) (b : List Nat), 1 ≤ b.length → b.length ≤ 3 →
      ¬ (∀ x ∈ b, 1 ≤ x ∧ x ≤ 127) →
      detectEncoding env (some b) = ⟨"utf-8", 0.7, "small-file"⟩) := by
  refine ⟨fun env => rfl, ?_, ?_⟩
  · intro env b h1 h3 hall
    have hne : ¬ b.length = 0 := by omega
    have hlt : b.length < 4 := by omega
    have hb : b.all (fun byte => decide (byte < 128 ∧ byte > 0)) = true := by
      rw [List.all_eq_true]
      intro x hx
      rcases hall x hx with ⟨hx1, hx2⟩
      simp only [decide_eq_true_eq]
      omega
    simp only [detectEncoding]
    rw [if_neg hne, if_pos hlt, if_pos hb]
  · intro env b h1 h3 hnot
    have hne : ¬ b.length = 0 := by omega
    have hlt : b.length < 4 := by omega
    have hb : ¬ b.all (fun byte => decide (byte < 128 ∧ byte > 0)) = true := by
      rw [List.all_eq_true]
      intro hall
      apply hnot
      intro x hx
      have := hall x hx
      simp only [decide_eq_true_eq] at this
      omega
    simp only [detectEncoding]
    rw [if_neg hne, if_pos hlt, if_neg hb]

/-- C4 witness: the three branches evaluated at a zero-byte file, the
single byte 65, and the single byte 200. -/
theorem detectEncoding_smallFiles_witness :
    detectEncoding quietEnv (some []) = ⟨"utf-8", 1.0, "empty-file"⟩ ∧
    detectEncoding quietEnv (some [65]) = ⟨"ascii", 0.9, "small-ascii"⟩ ∧
    detectEncoding quietEnv (some [200]) = ⟨"utf-8", 0.7, "small-file"⟩ :=
  ⟨detectEncoding_smallFiles.1 quietEnv,
   detectEncoding_smallFiles.2.1 quietEnv [65] (by decide) (by decide) (by decide),
   detectEncoding_smallFiles.2.2 quietEnv [200] (by decide) (by decide) (by decide)⟩

/-- C5: once the earlier detection steps decline (the buffer has at
least 4 bytes, the editor hint is absent or utf-8, jschardet answers
with confidence at most 0.7 or throws, and the auxiliary detector
answers utf-8 or throws), the heuristic step tries the candidates in
the fixed order and returns the first one whose replacement-character
count after decoding lies strictly below the size-scaled threshold
(max(1, length/10) below 100 bytes, length/20 otherwise); if no
candidate qualifies the result is utf-8, confidence 0.5, method
default. -/
theorem detectEncoding_heuristicOrder (env : Env) (bytes : List Nat)
    (hlen : 4 ≤ bytes.length)
    (hhint : ∀ h, env.vscodeHint = some h → h = "utf8" ∨ h = "utf-8")
    (hjs : ∀ r, env.jschardet = some r → r.2 ≤ (0.7 : ℚ))
    (haux : ∀ e, env.auxDetect = some e → lowerStr e = "utf-8") :
    detectEncoding env (some bytes) =
      match firstCleanCandidate env.codec bytes with
      | some e => ⟨normalizeEncoding e, 0.6, "heuristic"⟩
      | none => ⟨"utf-8", 0.5, "default"⟩ := by
  rw [detect_declines env bytes hlen hhint hjs haux]
  simp only [detectEncodingHeuristic, heuristicLoop_eq_find, firstCleanCandidate]
  cases (commonEncodings.find? fun e =>
      match env.codec.decode bytes e with
      | some t => decide (replacementCount t < heuristicThreshold bytes.length)
      | none => false) <;> rfl

/-- C5 witness: on the four ASCII bytes of `test` with all external
detectors declining, the first candidate (big5) decodes cleanly, so the
characterization picks it. -/
theorem detectEncoding_heuristicOrder_witness :
    4 ≤ ([116, 101, 115, 116] : List Nat).length ∧
    detectEncoding quietEnv (some [116, 101, 115, 116]) =
      (match firstCleanCandidate quietEnv.codec [116, 101, 115, 116] with
       | some e => ⟨normalizeEncoding e, 0.6, "heuristic"⟩
       | none => ⟨"utf-8", 0.5, "default"⟩) :=
  ⟨by decide,
   detectEncoding_heuristicOrder quietEnv [116, 101, 115, 116] (by decide)
     (fun h hh => by simp [quietEnv] at hh)
     (fun r hr => by simp [quietEnv] at hr)
     (fun e he => by simp [quietEnv] at he)⟩

/-- C9 (amended): for a buffer of at least 4 pure 7-bit ASCII bytes,
when every earlier detection step declines, the heuristic step itself
resolves the buffer — and it selects big5, the first candidate, because
ASCII bytes decode under big5 without replacement characters (the
codec hypotheses state this ASCII transparency of iconv-lite); the
utf-8 default is never reached.  Detection avoids the non-ASCII
candidates only when an earlier step resolves the buffer first. -/
theorem detectEncoding_asciiBig5 (env : Env) (bytes t : List Nat)
    (hlen : 4 ≤ bytes.length)
    (_hascii : ∀ x ∈ bytes, x ≤ 127)
    (hhint : ∀ h, env.vscodeHint = some h → h = "utf8" ∨ h = "utf-8")
    (hjs : ∀ r, env.jschardet = some r → r.2 ≤ (0.7 : ℚ))
    (haux : ∀ e, env.auxDetect = some e → lowerStr e = "utf-8")
    (hdec : env.codec.decode bytes "big5" = some t)
    (hclean : replacementCount t = 0) :
    detectEncoding env (some bytes) = ⟨"big5", 0.6, "heuristic"⟩ := by
  rw [detect_declines env bytes hlen hhint hjs haux]
  have hthr : 0 < heuristicThreshold bytes.length := by
    unfold heuristicThreshold
    split
    · exact lt_of_lt_of_le one_pos (le_max_left _ _)
    · next h => exact Nat.div_pos (by omega) (by omega)
  have hcond : replacementCount t < heuristicThreshold bytes.length := by
    rw [hclean]; exact hthr
  simp only [detectEncodingHeuristic, commonEncodings, heuristicLoop, hdec,
    if_pos hcond]
  rfl

/-- C9 witness for the amended claim: four ASCII bytes, declining
detectors, big5 decoding them transparently. -/
theorem detectEncoding_asciiBig5_witness :
    detectEncoding quietEnv (some [104, 105, 106, 107]) =
      ⟨"big5", 0.6, "heuristic"⟩ :=
  detectEncoding_asciiBig5 quietEnv [104, 105, 106, 107] [104, 105, 106, 107]
    (by decide) (by decide)
    (fun h hh => by simp [quietEnv] at hh)
    (fun r hr => by simp [quietEnv] at hr)
    (fun e he => by simp [quietEnv] at he)
    (by rfl) (by decide)

/-- C9 counterexample to the claim as stated: the buffer `abcd` has at
least 4 bytes, all 7-bit ASCII, yet with every external detector
declining, detection returns big5 — one of the non-ASCII heuristic
candidate encodings — rather than an earlier step or the utf-8
default. -/
theorem detectEncoding_ascii_cex :
    4 ≤ ([97, 98, 99, 100] : List Nat).length ∧
    (∀ x ∈ ([97, 98, 99, 100] : List Nat), x ≤ 127) ∧
    detectEncoding quietEnv (some [97, 98, 99, 100]) = ⟨"big5", 0.6, "heuristic"⟩ ∧
    "big5" ∈ commonEncodings :=
  ⟨by decide, by decide, rfl, by decide⟩

/-- C7: every aggregate the batch orchestrator returns classifies each
per-file result as skipped whenever `skipped` is set regardless of
`success`, as converted when successful and not skipped, and as an
error exactly when failed and not skipped — so the processed count
equals converted plus skipped plus errors and also equals the length of
the results list. -/
theorem processMultipleFiles_counts {α : Type} (conv : α → ConversionResult)
    (confirmed : Bool) (cancel : Nat → Bool) (cfg : Config) (files : List α)
    (r : BatchResult)
    (h : processMultipleFiles conv confirmed cancel cfg files = some r) :
    r.processed = r.converted + r.skipped + r.errors ∧
    r.processed = r.results.length := by
  simp only [processMultipleFiles] at h
  split at h
  · cases h
    exact ⟨rfl, rfl⟩
  · split at h
    · split at h
      · cases h
        exact ⟨rfl, rfl⟩
      · cases h
    · cases h
      obtain ⟨b1, b2⟩ :=
        waveLoop_balanced conv cancel _ files.length 0 files {} ⟨rfl, rfl⟩
      exact ⟨b1, b2⟩

/-- C7 witness: a confirmed three-file batch with concurrency 5 and no
cancellation; all three convert, and the counts balance. -/
theorem processMultipleFiles_counts_witness :
    processMultipleFiles convOk true (fun _ => false) plainConfig
        ["x", "y", "z"] =
      some ⟨3, 3, 3, 0, 0, [convOk "x", convOk "y", convOk "z"]⟩ ∧
    (3 : Nat) = 3 + 0 + 0 ∧
    (3 : Nat) = [convOk "x", convOk "y", convOk "z"].length := by
  refine ⟨by decide, ?_, ?_⟩
  · exact (processMultipleFiles_counts convOk true (fun _ => false) plainConfig
      ["x", "y", "z"] ⟨3, 3, 3, 0, 0, [convOk "x", convOk "y", convOk "z"]⟩
      (by decide)).1
  · exact (processMultipleFiles_counts convOk true (fun _ => false) plainConfig
      ["x", "y", "z"] ⟨3, 3, 3, 0, 0, [convOk "x", convOk "y", convOk "z"]⟩
      (by decide)).2

/-- C8 (amended): the batch orchestrator performs no deduplication.  A
confirmed, never-cancelled batch submits every occurrence in the
candidate list exactly as given, so a path appearing twice in the list
is converted twice within the batch. -/
theorem processMultipleFiles_submitsAll {α : Type} (conv : α → ConversionResult)
    (cancel : Nat → Bool) (cfg : Config) (files : List α) (r : BatchResult)
    (hcan : ∀ w, cancel w = false)
    (h : processMultipleFiles conv true cancel cfg files = some r) :
    r.results = files.map conv := by
  simp only [processMultipleFiles] at h
  split at h
  · simp at *
  · split at h
    · split at h
      · cases h
        next hlen =>
        have : files = [] := List.length_eq_zero.mp hlen
        subst this
        rfl
      · cases h
    · rename_i bsPred heq
      cases h
      have := waveLoop_results conv cancel bsPred hcan files.length files
        (le_refl _) 0 {}
      simpa using this

/-- C8 witness for the amended claim: the candidate list built from
selecting a directory together with a file inside it contains that file
twice, and the orchestrator submits and converts both occurrences. -/
theorem processMultipleFiles_submitsAll_witness :
    collectBatchFiles plainConfig quietEnv 5 dupSelection = ["d/a.txt", "d/a.txt"] ∧
    (∀ w, (fun _ : Nat => false) w = false) ∧
    processMultipleFiles convOk true (fun _ => false) plainConfig
        (collectBatchFiles plainConfig quietEnv 5 dupSelection) =
      some ⟨2, 2, 2, 0, 0, [convOk "d/a.txt", convOk "d/a.txt"]⟩ ∧
    [convOk "d/a.txt", convOk "d/a.txt"] =
      (collectBatchFiles plainConfig quietEnv 5 dupSelection).map convOk :=
  ⟨by decide, fun _ => rfl, by decide,
   processMultipleFiles_submitsAll convOk (fun _ => false) plainConfig
     (collectBatchFiles plainConfig quietEnv 5 dupSelection)
     ⟨2, 2, 2, 0, 0, [convOk "d/a.txt", convOk "d/a.txt"]⟩
     (fun _ => rfl) (by decide)⟩

/-- C8 counterexample to the claim as stated: selecting the directory
`d` and, explicitly, the file `d/a.txt` inside it yields a candidate
list in which the file appears twice; the orchestrator submits both
occurrences within one batch (its results list carries the same path
twice), so files are not deduplicated. -/
theorem batchDuplicate_cex :
    collectBatchFiles plainConfig quietEnv 5 dupSelection = ["d/a.txt", "d/a.txt"] ∧
    ¬ (collectBatchFiles plainConfig quietEnv 5 dupSelection).Nodup ∧
    (processMultipleFiles convOk true (fun _ => false) plainConfig
        (collectBatchFiles plainConfig quietEnv 5 dupSelection)).map
        (fun r => r.results.map (fun c => c.filePath)) =
      some ["d/a.txt", "d/a.txt"] :=
  ⟨by decide, by decide, by decide⟩

theorem convertFull_failure_error (env : Env) (cfg : Config) (fs : FS) (uri : Uri)
    (de te : String) (n : Nat) (raw : List Nat) (se : Option String)
    (hsu : (convertFull env cfg fs uri de te n raw se).1.success = false) :
    (convertFull env cfg fs uri de te n raw se).1.error.isSome = true := by
  cases hdec : (match env.codec.decode raw de with
      | some t => some t
      | none => env.codec.decodeStripBOM raw de) with
  | none => simp [convertFull, hdec]
  | some text =>
    cases henc : env.codec.encode text te with
    | none => simp [convertFull, hdec, henc]
    | some eb =>
      simp [convertFull, hdec, henc] at hsu

/-- C6: neither the detector nor the conversion engine propagates an
exception.  Both are total functions of the model; a read that throws
inside the detector reaches the outermost catch and yields the utf-8
fallback with confidence 0.1, and every post-classification failure of
the conversion engine is caught and reported as a result with
`success` false whose `error` field carries a message. -/
theorem noThrow_results :
    (∀ env : Env, detectEncoding env none = ⟨"utf-8", 0.1, "fallback"⟩) ∧
    (∀ (env : Env) (cfg : Config) (fs : FS) (uri : Uri)
       (se : Option String) (te : String),
      (shouldProcessFile cfg env uri).1 = true →
      (convertFile env cfg fs uri se te).1.skipped = false →
      (convertFile env cfg fs uri se te).1.success = false →
      (convertFile env cfg fs uri se te).1.error.isSome = true) := by
  constructor
  · intro env
    rfl
  · intro env cfg fs uri se te hp hsk hsu
    have hpc : ¬ ¬ (shouldProcessFile cfg env uri).1 = true := by simp [hp]
    simp only [convertFile] at hsk hsu ⊢
    rw [if_neg hpc] at hsk hsu ⊢
    cases hg : fs.get uri.fsPath with
    | none => simp [hg]
    | some d =>
      simp only [hg] at hsk hsu ⊢
      by_cases hl : (d.content.length > 104857600 ∧ ¬ env.userConfirmLarge = true)
      · rw [if_pos hl] at hsk
        simp at hsk
      · rw [if_neg hl] at hsk hsu ⊢
        by_cases heq : normalizeEncoding (effectiveSourceEncoding env d.content se) =
            normalizeEncoding te
        · rw [if_pos heq] at hsu ⊢
          cases hdec : env.codec.decode d.content (normalizeEncoding te) with
          | none =>
            simp only [hdec] at hsu ⊢
            exact convertFull_failure_error env cfg fs uri _ te _ _ se hsu
          | some testText =>
            simp only [hdec] at hsu ⊢
            cases henc : env.codec.encode testText (normalizeEncoding te) with
            | none =>
              simp only [henc] at hsu ⊢
              exact convertFull_failure_error env cfg fs uri _ te _ _ se hsu
            | some reencoded =>
              simp only [henc] at hsu ⊢
              by_cases hrb : reencoded = d.content
              · rw [if_pos hrb] at hsu
                simp at hsu
              · rw [if_neg hrb] at hsu ⊢
                exact convertFull_failure_error env cfg fs uri _ te _ _ se hsu
        · rw [if_neg heq] at hsu ⊢
          exact convertFull_failure_error env cfg fs uri _ te _ _ se hsu

/-- C6 witness: a file whose read throws (it is absent from the
filesystem) passes classification, and the conversion result records a
failure message rather than an exception; the detector fallback is also
evaluated. -/
theorem noThrow_results_witness :
    detectEncoding quietEnv none = ⟨"utf-8", 0.1, "fallback"⟩ ∧
    (shouldProcessFile plainConfig quietEnv ⟨"file", "w.txt"⟩).1 = true ∧
    (convertFile quietEnv plainConfig ⟨[], 0⟩ ⟨"file", "w.txt"⟩ none "utf8").1.skipped
      = false ∧
    (convertFile quietEnv plainConfig ⟨[], 0⟩ ⟨"file", "w.txt"⟩ none "utf8").1.success
      = false ∧
    (convertFile quietEnv plainConfig ⟨[], 0⟩ ⟨"file", "w.txt"⟩ none "utf8").1.error.isSome
      = true :=
  ⟨noThrow_results.1 quietEnv, by decide, by decide, by decide,
   noThrow_results.2 quietEnv plainConfig ⟨[], 0⟩ ⟨"file", "w.txt"⟩ none "utf8"
     (by decide) (by decide) (by decide)⟩

/-- C1: when the normalized effective source encoding (detected or
caller-supplied) equals the normalized target and the bytes decode and
re-encode under that normalized target back to exactly the original
bytes, the conversion returns success with `skipped` set and skip
reason `Already in target encoding`, leaving the filesystem untouched
(no write, no backup); when the round-trip does not reproduce the
bytes, the conversion falls through to the full conversion instead of
skipping. -/
theorem convertFile_noopSkip (env : Env) (cfg : Config) (fs : FS) (uri : Uri)
    (se : Option String) (te : String) (d : FileData)
    (hproc : (shouldProcessFile cfg env uri).1 = true)
    (hread : fs.get uri.fsPath = some d)
    (hlarge : d.content.length ≤ 104857600 ∨ env.userConfirmLarge = true)
    (heq : normalizeEncoding (effectiveSourceEncoding env d.content se) =
      normalizeEncoding te) :
    (roundTripOK env.codec d.content (normalizeEncoding te) = true →
      convertFile env cfg fs uri se te =
        ({ success := true, filePath := uri.fsPath,
           originalEncoding := some (effectiveSourceEncoding env d.content se),
           targetEncoding := some te, fileSize := some d.content.length,
           skipped := true,
           skipReason := some "Already in target encoding" }, fs)) ∧
    (roundTripOK env.codec d.content (normalizeEncoding te) = false →
      convertFile env cfg fs uri se te =
        convertFull env cfg fs uri (effectiveSourceEncoding env d.content se) te
          d.content.length d.content se) := by
  have hpc : ¬ ¬ (shouldProcessFile cfg env uri).1 = true := by simp [hproc]
  have hl : ¬ (d.content.length > 104857600 ∧ ¬ env.userConfirmLarge = true) := by
    rcases hlarge with h | h
    · intro hh
      omega
    · intro hh
      exact hh.2 h
  constructor
  · intro hok
    simp only [convertFile]
    rw [if_neg hpc]
    simp only [hread, Option.map_some', Option.getD_some]
    rw [if_neg hl, if_pos heq]
    cases hdec : env.codec.decode d.content (normalizeEncoding te) with
    | none => simp [roundTripOK, hdec] at hok
    | some testText =>
      simp only [hdec]
      cases henc : env.codec.encode testText (normalizeEncoding te) with
      | none => simp [roundTripOK, hdec, henc] at hok
      | some reencoded =>
        simp only [henc]
        simp only [roundTripOK, hdec, henc] at hok
        rw [if_pos (of_decide_eq_true hok)]
  · intro hfa
    simp only [convertFile]
    rw [if_neg hpc]
    simp only [hread, Option.map_some', Option.getD_some]
    rw [if_neg hl, if_pos heq]
    cases hdec : env.codec.decode d.content (normalizeEncoding te) with
    | none => simp only [hdec]
    | some testText =>
      simp only [hdec]
      cases henc : env.codec.encode testText (normalizeEncoding te) with
      | none => simp only [henc]
      | some reencoded =>
        simp only [henc]
        simp only [roundTripOK, hdec, henc] at hfa
        rw [if_neg (of_decide_eq_false hfa)]

/-- C1 witness: a two-byte ASCII file declared as UTF-8 and converted
to utf8 round-trips, so the conversion is skipped and the filesystem is
returned unchanged. -/
theorem convertFile_noopSkip_witness :
    roundTripOK quietEnv.codec [104, 105] (normalizeEncoding "utf8") = true ∧
    convertFile quietEnv plainConfig fsNoop ⟨"file", "a.txt"⟩ (some "UTF-8") "utf8" =
      ({ success := true, filePath := "a.txt",
         originalEncoding :=
           some (effectiveSourceEncoding quietEnv [104, 105] (some "UTF-8")),
         targetEncoding := some "utf8", fileSize := some 2, skipped := true,
         skipReason := some "Already in target encoding" }, fsNoop) :=
  ⟨by decide,
   (convertFile_noopSkip quietEnv plainConfig fsNoop ⟨"file", "a.txt"⟩
     (some "UTF-8") "utf8" ⟨[104, 105], 0⟩ (by decide) (by decide)
     (Or.inl (by decide)) (by decide)).1 (by decide)⟩

theorem undo_after_full (env : Env) (cfg : Config) (fs : FS) (uri : Uri)
    (de te : String) (n : Nat) (raw : List Nat) (se : Option String)
    (res : ConversionResult) (fs2 : FS) (d : FileData)
    (hwf : fs.WellFormed)
    (hread : fs.get uri.fsPath = some d)
    (hbak : cfg.createBackup = true)
    (hin : probeBackup fs uri.fsPath ∈ backupCandidates uri.fsPath)
    (hconv : convertFull env cfg fs uri de te n raw se = (res, fs2))
    (hsucc : res.success = true) :
    (undoConversion fs2 uri.fsPath).ok = true ∧
    ((undoConversion fs2 uri.fsPath).fs.get uri.fsPath).map FileData.content =
      some d.content ∧
    (undoConversion fs2 uri.fsPath).fs.get (probeBackup fs uri.fsPath) = none := by
  simp only [convertFull, hbak, if_true, createBackup, hread] at hconv
  cases hdc : (match env.codec.decode raw de with
      | some t => some t
      | none => env.codec.decodeStripBOM raw de) with
  | none =>
    simp only [hdc] at hconv
    rw [Prod.mk.injEq] at hconv
    rw [← hconv.1] at hsucc
    simp at hsucc
  | some text =>
    simp only [hdc] at hconv
    cases hec : env.codec.encode text te with
    | none =>
      simp only [hec] at hconv
      rw [Prod.mk.injEq] at hconv
      rw [← hconv.1] at hsucc
      simp at hsucc
    | some eb =>
      simp only [hec] at hconv
      rw [Prod.mk.injEq] at hconv
      have hfs2 : fs2 = (fs.write (probeBackup fs uri.fsPath) d.content).write
          uri.fsPath eb := hconv.2.symm
      subst hfs2
      have hbpne : probeBackup fs uri.fsPath ≠ uri.fsPath :=
        backupCandidates_ne_self uri.fsPath _ hin
      have hnow1 : 0 < fs.now := lt_of_le_of_lt (Nat.zero_le _) (hwf _ _ hread)
      have hget_bp : ((fs.write (probeBackup fs uri.fsPath) d.content).write
          uri.fsPath eb).get (probeBackup fs uri.fsPath) =
          some ⟨d.content, fs.now⟩ := by
        rw [FS.get_write, if_neg hbpne, FS.get_write, if_pos rfl]
      have hother : ∀ c ∈ backupCandidates uri.fsPath, c ≠ probeBackup fs uri.fsPath →
          ∀ dc, ((fs.write (probeBackup fs uri.fsPath) d.content).write
            uri.fsPath eb).get c = some dc → dc.mtime < fs.now := by
        intro c hc hne dc hgc
        have hcne : c ≠ uri.fsPath := backupCandidates_ne_self _ c hc
        rw [FS.get_write, if_neg hcne, FS.get_write, if_neg hne] at hgc
        exact hwf c dc hgc
      have hfind : findLatestBackup ((fs.write (probeBackup fs uri.fsPath)
          d.content).write uri.fsPath eb) uri.fsPath =
          some (probeBackup fs uri.fsPath) := by
        unfold findLatestBackup
        exact latestLoop_pick _ _ _ ⟨d.content, fs.now⟩ hget_bp hin hother none 0
          hnow1
      simp only [undoConversion, hfind, hget_bp]
      refine ⟨trivial, ?_, ?_⟩
      · rw [FS.get_delete, if_neg (fun h => hbpne h.symm), FS.get_write,
          if_pos rfl]
        rfl
      · rw [FS.get_delete, if_pos rfl]

/-- C3 (amended): for a file converted with backup enabled, provided
the backup path the probe selects is among the six candidates
`.bak`, `.bak.1` ... `.bak.5` that `findLatestBackup` examines (it can
fall outside them when six or more backups already exist), undo locates
that backup — the one with the greatest modification time — restores
the original path byte-for-byte to its pre-conversion content, and
deletes the backup; and when no candidate backup exists at all, undo
reports a user-visible error and returns false without modifying the
filesystem. -/
theorem undoConversion_restoresLatest (env : Env) (cfg : Config) (fs : FS)
    (uri : Uri) (se : Option String) (te : String) (d : FileData)
    (res : ConversionResult) (fs2 : FS)
    (hwf : fs.WellFormed)
    (hread : fs.get uri.fsPath = some d)
    (hbak : cfg.createBackup = true)
    (hconv : convertFile env cfg fs uri se te = (res, fs2))
    (hsucc : res.success = true)
    (hnskip : res.skipped = false)
    (hin : probeBackup fs uri.fsPath ∈ backupCandidates uri.fsPath) :
    ((undoConversion fs2 uri.fsPath).ok = true ∧
     ((undoConversion fs2 uri.fsPath).fs.get uri.fsPath).map FileData.content =
       some d.content ∧
     (undoConversion fs2 uri.fsPath).fs.get (probeBackup fs uri.fsPath) = none) ∧
    (∀ (fs3 : FS) (p : String), (∀ c ∈ backupCandidates p, fs3.get c = none) →
      undoConversion fs3 p = ⟨false, fs3, true⟩) := by
  have hpart2 : ∀ (fs3 : FS) (p : String),
      (∀ c ∈ backupCandidates p, fs3.get c = none) →
      undoConversion fs3 p = ⟨false, fs3, true⟩ := by
    intro fs3 p hnone
    simp only [undoConversion, findLatestBackup,
      latestLoop_none fs3 _ none 0 hnone]
  refine ⟨?_, hpart2⟩
  simp only [convertFile] at hconv
  split at hconv
  · rw [Prod.mk.injEq] at hconv
    rw [← hconv.1] at hsucc
    simp at hsucc
  · simp only [hread, Option.map_some', Option.getD_some] at hconv
    split at hconv
    · rw [Prod.mk.injEq] at hconv
      rw [← hconv.1] at hsucc
      simp at hsucc
    · split at hconv
      · cases hdec : env.codec.decode d.content (normalizeEncoding te) with
        | none =>
          simp only [hdec] at hconv
          exact undo_after_full env cfg fs uri _ te _ _ se res fs2 d hwf hread
            hbak hin hconv hsucc
        | some testText =>
          simp only [hdec] at hconv
          cases henc : env.codec.encode testText (normalizeEncoding te) with
          | none =>
            simp only [henc] at hconv
            exact undo_after_full env cfg fs uri _ te _ _ se res fs2 d hwf hread
              hbak hin hconv hsucc
          | some reencoded =>
            simp only [henc] at hconv
            split at hconv
            · rw [Prod.mk.injEq] at hconv
              rw [← hconv.1] at hnskip
              simp at hnskip
            · exact undo_after_full env cfg fs uri _ te _ _ se res fs2 d hwf
                hread hbak hin hconv hsucc
      · exact undo_after_full env cfg fs uri _ te _ _ se res fs2 d hwf hread
          hbak hin hconv hsucc

/-- C3 witness: a Big5 file with no prior backups is converted with
backup enabled; undo restores the original two bytes and removes the
backup. -/
theorem undoConversion_restoresLatest_witness :
    (undoConversion (convertFile quietEnv plainConfig fsUndo ⟨"file", "b.txt"⟩
        (some "Big5") "utf8").2 "b.txt").ok = true ∧
    ((undoConversion (convertFile quietEnv plainConfig fsUndo ⟨"file", "b.txt"⟩
        (some "Big5") "utf8").2 "b.txt").fs.get "b.txt").map FileData.content =
      some [164, 164] ∧
    (undoConversion (convertFile quietEnv plainConfig fsUndo ⟨"file", "b.txt"⟩
        (some "Big5") "utf8").2 "b.txt").fs.get "b.txt.bak" = none :=
  (undoConversion_restoresLatest quietEnv plainConfig fsUndo
    ⟨"file", "b.txt"⟩ (some "Big5") "utf8" ⟨[164, 164], 0⟩
    { success := true, filePath := "b.txt", originalEncoding := some "big5",
      targetEncoding := some "utf8", fileSize := some 2,
      backupCreated := some true, detectedOriginalEncoding := some "big5" }
    ⟨[("b.txt", ⟨[228, 184, 173], 2⟩), ("b.txt.bak", ⟨[164, 164], 1⟩)], 3⟩
    (wellFormed_of_mem (by decide)) (by decide) rfl (by decide) rfl rfl
    (by decide)).1

/-- C3 counterexample to the claim as stated: when the six candidate
backup names already exist, the conversion still succeeds with
`backupCreated` true (the backup goes to `.bak.6`), but undo restores
the stale bytes of `c.txt.bak.5` — the latest-mtime candidate — so the
file is not byte-identical to its pre-conversion content. -/
theorem undoConversion_sixBackups_cex :
    fsSixBak.get "c.txt" = some ⟨[164, 164], 0⟩ ∧
    plainConfig.createBackup = true ∧
    (convertFile quietEnv plainConfig fsSixBak ⟨"file", "c.txt"⟩
        (some "Big5") "utf8").1.success = true ∧
    (convertFile quietEnv plainConfig fsSixBak ⟨"file", "c.txt"⟩
        (some "Big5") "utf8").1.skipped = false ∧
    (convertFile quietEnv plainConfig fsSixBak ⟨"file", "c.txt"⟩
        (some "Big5") "utf8").1.backupCreated = some true ∧
    (undoConversion (convertFile quietEnv plainConfig fsSixBak ⟨"file", "c.txt"⟩
        (some "Big5") "utf8").2 "c.txt").ok = true ∧
    ((undoConversion (convertFile quietEnv plainConfig fsSixBak ⟨"file", "c.txt"⟩
        (some "Big5") "utf8").2 "c.txt").fs.get "c.txt").map FileData.content =
      some [6] ∧
    (some [6] : Option (List Nat)) ≠ some [164, 164] :=
  ⟨by decide, by decide, by decide, by decide, by decide, by decide, by decide,
   by decide⟩

/-- C10: with the six backups `g.txt.bak` ... `g.txt.bak.5` already on
disk, `createBackup` succeeds and writes the new backup to the seventh
suffix `g.txt.bak.6` (its probe runs up to suffix 100), yet
`findLatestBackup` — which only examines suffixes up to `.bak.5` —
returns `g.txt.bak.5` rather than the new backup; undo after such a
conversion restores the stale bytes of an older backup even though the
conversion reported `backupCreated` true, and the new backup survives
the undo. -/
theorem backupBeyondCandidates_mismatch :
    (∀ c ∈ backupCandidates "g.txt", fsTenBak.get c ≠ none) ∧
    probeBackup fsTenBak "g.txt" = "g.txt.bak.6" ∧
    (convertFile quietEnv plainConfig fsTenBak ⟨"file", "g.txt"⟩
        (some "Big5") "utf8").1.backupCreated = some true ∧
    (convertFile quietEnv plainConfig fsTenBak ⟨"file", "g.txt"⟩
        (some "Big5") "utf8").2.get "g.txt.bak.6" = some ⟨[164, 164], 7⟩ ∧
    findLatestBackup (convertFile quietEnv plainConfig fsTenBak ⟨"file", "g.txt"⟩
        (some "Big5") "utf8").2 "g.txt" = some "g.txt.bak.5" ∧
    (some "g.txt.bak.5" : Option String) ≠ some "g.txt.bak.6" ∧
    ((undoConversion (convertFile quietEnv plainConfig fsTenBak ⟨"file", "g.txt"⟩
        (some "Big5") "utf8").2 "g.txt").fs.get "g.txt").map FileData.content =
      some [16] ∧
    (some [16] : Option (List Nat)) ≠ some [164, 164] ∧
    (undoConversion (convertFile quietEnv plainConfig fsTenBak ⟨"file", "g.txt"⟩
        (some "Big5") "utf8").2 "g.txt").fs.get "g.txt.bak.6" =
      some ⟨[164, 164], 7⟩ :=
  ⟨by decide, by decide, by decide, by decide, by decide, by decide, by decide,
   by decide, by decide⟩

set_option maxRecDepth 10000 in
/-- C2: evaluation of `createBackup` at the failing input of the claim
with N = 101 — the path `f` whose backups `f.bak`, `f.bak.1`, ...,
`f.bak.100` all exist.  The probe cap fires at counter 101, but the
`throw` sits inside the very `try` block whose `catch` treats any
exception as `name is free`, so instead of failing loudly the call
returns true and overwrites the existing backup `f.bak.100` (whose old
bytes `[100]` are replaced by the file bytes `[7, 7]`), and the first
unused suffix `f.bak.101` is never written. -/
theorem createBackup_capOverwrites :
    manyBackupsFS.get "f.bak.100" = some ⟨[100], 100⟩ ∧
    (createBackup manyBackupsFS "f").1 = true ∧
    (createBackup manyBackupsFS "f").2.get "f.bak.100" = some ⟨[7, 7], 102⟩ ∧
    (createBackup manyBackupsFS "f").2.get "f.bak.101" = none :=
  ⟨by decide, by decide, by decide, by decide⟩
